import Mathlib

/-!
# urlshort: `MapHandler`, `YAMLHandler`, `JSONHandler`

A shallow embedding of `handler.go` together with the parts of the Go standard
library its behaviour rests on (`net/http.Redirect`, `net/url.Parse`,
`path.Clean`, `httptest.ResponseRecorder`, `encoding/json.Unmarshal`).

Conventions.
* A Go `string` / `[]byte` is a Lean `String`; the text functions work on its
  list of characters.  Every character the library code inspects is ASCII, so
  the byte-indexed Go code and the character-indexed model agree; a Go string
  that is not valid UTF-8 has no counterpart here.
* A handler is a state transformer; the state holds the response writer, the
  log of calls the handler body has made to its collaborators, and whether a
  panic is unwinding the call.
* Three library behaviours stay abstract, collected in `Lib`: YAML decoding,
  the authority part of `url.Parse`, and content sniffing.  Every theorem is
  proved for every `Lib`.
-/

set_option autoImplicit false

namespace urlshort

/-! ## Go maps -/

/-- A Go `map[string]β` as the list of its entries.  `set` keeps one entry per key. -/
structure GoMap (β : Type) where
  entries : List (String × β)
deriving DecidableEq, Repr

namespace GoMap

variable {β : Type}

/-- The value of `make(map[string]β)`. -/
def empty : GoMap β := ⟨[]⟩

/-- First entry of an entry list stored under `k`. -/
def find (k : String) : List (String × β) → Option β
  | [] => none
  | (k', v) :: rest => if k' = k then some v else find k rest

/-- Entry list after `m[k] = v`: the entry for `k` is replaced, or a new one added. -/
def put (k : String) (v : β) : List (String × β) → List (String × β)
  | [] => [(k, v)]
  | (k', v') :: rest => if k' = k then (k, v) :: rest else (k', v') :: put k v rest

/-- The comma-ok lookup `v, ok := m[k]`. -/
def get (m : GoMap β) (k : String) : Option β := find k m.entries

/-- The assignment `m[k] = v`. -/
def set (m : GoMap β) (k : String) (v : β) : GoMap β := ⟨put k v m.entries⟩

/-- The statement `delete(m, k)`. -/
def delete (m : GoMap β) (k : String) : GoMap β := ⟨m.entries.filter (fun e => e.1 ≠ k)⟩

/-- The value of `len(m)`. -/
def len (m : GoMap β) : Nat := m.entries.length

/-- The keys of the map. -/
def keys (m : GoMap β) : List String := m.entries.map Prod.fst

end GoMap

/-! ## Text helpers (package `strings`) -/

/-- Models `strings.HasPrefix(s, p)`. -/
def startsWith (s p : List Char) : Bool := p.isPrefixOf s

/-- Models `strings.HasSuffix(s, p)`. -/
def endsWith (s p : List Char) : Bool := p.reverse.isPrefixOf s.reverse

/-- The part of `s` before the first `sep` (all of `s` when there is none):
first result of `strings.Cut(s, sep)` for a one-byte separator. -/
def cutBefore (sep : Char) (s : List Char) : List Char := s.takeWhile (fun c => c ≠ sep)

/-- The part of `s` from the first `sep` on, `sep` included (empty when there is none). -/
def fromFirst (sep : Char) (s : List Char) : List Char := s.dropWhile (fun c => c ≠ sep)

/-- The part of `s` after the first `sep` (empty when there is none):
second result of `strings.Cut(s, sep)`. -/
def cutAfter (sep : Char) (s : List Char) : List Char := (fromFirst sep s).drop 1

/-- The UTF-8 encoding of the code point `n`, as byte values. -/
def utf8Bytes (n : Nat) : List Nat :=
  if n < 128 then [n]
  else if n < 2048 then [192 + n / 64, 128 + n % 64]
  else if n < 65536 then [224 + n / 4096, 128 + n / 64 % 64, 128 + n % 64]
  else [240 + n / 262144, 128 + n / 4096 % 64, 128 + n / 64 % 64, 128 + n % 64]

/-- The bytes of a Go string. -/
def bytesOf (s : List Char) : List Nat := (s.map (fun c => utf8Bytes c.toNat)).flatten

/-! ## Package `path` -/

namespace path

/-- Models `path.Split`, first result: everything up to and including the last slash. -/
def SplitDir (p : List Char) : List Char := (fromFirst '/' p.reverse).reverse

/-- The write buffer of `path.Clean`: the output so far, last byte first, and `dotdot`. -/
structure lazybuf where
  out : List Char
  dotdot : Nat
deriving DecidableEq, Repr

/-- The backtracking of the `..` case: `out.w--` followed by
`for out.w > dotdot && out.index(out.w) != '/' { out.w-- }`. -/
def backtrack (dotdot : Nat) : List Char → List Char
  | [] => []
  | c :: rest => if rest.length > dotdot ∧ c ≠ '/' then backtrack dotdot rest else rest

/-- The `..` case of `path.Clean`. -/
def dotdotElem (rooted : Bool) (b : lazybuf) : lazybuf :=
  if b.out.length > b.dotdot then { b with out := backtrack b.dotdot b.out }
  else if !rooted then
    let out := if b.out.length > 0 then '/' :: b.out else b.out
    let out := '.' :: '.' :: out
    { out := out, dotdot := out.length }
  else b

/-- Where the main loop of `path.Clean` stands: at the start of a path element, inside
the copy of an ordinary element (the inner `for` of the default case), or on the second
dot of a `..` element (the `r += 2`). -/
inductive Mode
  | start
  | copy
  | skip
deriving DecidableEq, Repr

/-- The main loop of `path.Clean` over the unread input. -/
def cleanLoop (rooted : Bool) : Mode → List Char → lazybuf → lazybuf
  | _, [], b => b
  | Mode.skip, _ :: rest, b => cleanLoop rooted Mode.start rest b
  | Mode.copy, c :: rest, b =>
    if c = '/' then cleanLoop rooted Mode.start rest b
    else cleanLoop rooted Mode.copy rest { b with out := c :: b.out }
  | Mode.start, c :: rest, b =>
    if c = '/' then cleanLoop rooted Mode.start rest b
    else if c = '.' ∧ (rest = [] ∨ rest.head? = some '/') then
      cleanLoop rooted Mode.start rest b
    else if c = '.' ∧ rest.head? = some '.' ∧
        (rest.drop 1 = [] ∨ (rest.drop 1).head? = some '/') then
      cleanLoop rooted Mode.skip rest (dotdotElem rooted b)
    else
      let b := if (rooted ∧ b.out.length ≠ 1) ∨ (!rooted ∧ b.out.length ≠ 0)
        then { b with out := '/' :: b.out } else b
      cleanLoop rooted Mode.copy rest { b with out := c :: b.out }

/-- Models `path.Clean`. -/
def Clean (p : List Char) : List Char :=
  if p = [] then ['.']
  else
    let rooted := p.head? = some '/'
    let b := cleanLoop rooted Mode.start (if rooted then p.drop 1 else p)
      (if rooted then ⟨['/'], 1⟩ else ⟨[], 0⟩)
    if b.out.length = 0 then ['.'] else b.out.reverse

end path

/-! ## Behaviour left abstract -/

/-- A Go `error` value, by the kind of failure it reports. -/
inductive error
  | jsonSyntaxError
  | jsonUnmarshalTypeError
  | yamlError (msg : String)
deriving DecidableEq, Repr

/-- One decoded configuration record (`type pathURL struct`). -/
structure pathURL where
  Path : String
  URL : String
deriving DecidableEq, Repr

/-- Library behaviour the development does not model.
* `yamlUnmarshal yml`: the contents of the `[]pathURL` after
  `yaml.Unmarshal(yml, &parsedYAML)` and the error it returned (`none` for `nil`);
* `parseAuthority a`: the host found by `net/url.parseAuthority`, `none` for an error;
* `DetectContentType b`: the result of `http.DetectContentType`. -/
structure Lib where
  yamlUnmarshal : String → List pathURL × Option error
  parseAuthority : List Char → Option String
  DetectContentType : String → String

/-! ## Package `net/url` -/

namespace url

/-- Models `stringContainsCTLByte`: a byte below space, or DEL. -/
def stringContainsCTLByte (s : List Char) : Bool :=
  s.any (fun c => decide (c.toNat < 32 ∨ c.toNat = 127))

/-- ASCII letter test used by `getScheme`. -/
def isLetter (c : Char) : Bool :=
  decide ((97 ≤ c.toNat ∧ c.toNat ≤ 122) ∨ (65 ≤ c.toNat ∧ c.toNat ≤ 90))

/-- ASCII digit test. -/
def isDigit (c : Char) : Bool := decide (48 ≤ c.toNat ∧ c.toNat ≤ 57)

/-- The loop of `getScheme` at byte index `i`, with the unread bytes `cs`.
Result: `none` for the error, else `(scheme, path)`. -/
def getSchemeLoop (rawURL : List Char) : Nat → List Char → Option (List Char × List Char)
  | _, [] => some ([], rawURL)
  | i, c :: cs =>
    if isLetter c then getSchemeLoop rawURL (i + 1) cs
    else if isDigit c ∨ c = '+' ∨ c = '-' ∨ c = '.' then
      if i = 0 then some ([], rawURL) else getSchemeLoop rawURL (i + 1) cs
    else if c = ':' then
      if i = 0 then none else some (rawURL.take i, cs)
    else some ([], rawURL)

/-- Models `getScheme`. -/
def getScheme (rawURL : List Char) : Option (List Char × List Char) :=
  getSchemeLoop rawURL 0 rawURL

/-- Models `ishex`. -/
def ishex (c : Char) : Bool :=
  isDigit c || decide ((97 ≤ c.toNat ∧ c.toNat ≤ 102) ∨ (65 ≤ c.toNat ∧ c.toNat ≤ 70))

/-- Whether `unescape(s, mode)` succeeds, for the path and fragment modes: every
percent sign is followed by two hex digits. -/
def unescapeOk : List Char → Bool
  | [] => true
  | c :: rest =>
    if c = '%' then
      match rest with
      | a :: b :: rest' => ishex a && ishex b && unescapeOk rest'
      | _ => false
    else unescapeOk rest

/-- Models `unhex`: the value of a hex digit. -/
def unhex (c : Char) : Nat :=
  if isDigit c then c.toNat - 48
  else if 97 ≤ c.toNat ∧ c.toNat ≤ 102 then c.toNat - 97 + 10
  else if 65 ≤ c.toNat ∧ c.toNat ≤ 70 then c.toNat - 65 + 10
  else 0

/-- Models `unescape(s, encodePath)`: the bytes of the decoded string, `none` for the
error of a percent sign not followed by two hex digits. -/
def unescape : List Char → Option (List Nat)
  | [] => some []
  | c :: rest =>
    if c = '%' then
      match rest with
      | a :: b :: rest' =>
        if ishex a && ishex b then (unescape rest').map (fun t => (unhex a * 16 + unhex b) :: t)
        else none
      | _ => none
    else (unescape rest).map (fun t => utf8Bytes c.toNat ++ t)

/-- Models `shouldEscape(c, encodePath)`.  Letters, digits, the marks `-_.~` and the
reserved characters other than the question mark stay; every other byte, so every byte of
a non-ASCII character, is escaped. -/
def shouldEscape (c : Char) : Bool :=
  if isLetter c || isDigit c then false
  else if c = '-' ∨ c = '_' ∨ c = '.' ∨ c = '~' then false
  else if c = '$' ∨ c = '&' ∨ c = '+' ∨ c = ',' ∨ c = '/' ∨ c = ':' ∨ c = ';' ∨ c = '='
      ∨ c = '@' then false
  else true

/-- An upper-case hexadecimal digit (the table `upperhex`). -/
def upperhex (d : Nat) : Char := if d < 10 then Char.ofNat (48 + d) else Char.ofNat (55 + d)

/-- Models `escape(s, encodePath)`: every byte that `shouldEscape` names becomes `%XX`. -/
def escape : List Char → List Char
  | [] => []
  | c :: cs =>
    if shouldEscape c then
      ((utf8Bytes c.toNat).map (fun b => ['%', upperhex (b / 16), upperhex (b % 16)])).flatten
        ++ escape cs
    else c :: escape cs

/-- Models `validEncoded(s, encodePath)`. -/
def validEncoded (s : List Char) : Bool :=
  s.all (fun c =>
    if c = '!' ∨ c = '$' ∨ c = '&' ∨ c = Char.ofNat 39 ∨ c = '(' ∨ c = ')' ∨ c = '*'
        ∨ c = '+' ∨ c = ',' ∨ c = ';' ∨ c = '=' ∨ c = ':' ∨ c = '@' then true
    else if c = '[' ∨ c = ']' then true
    else if c = '%' then true
    else !shouldEscape c)

/-- The fields of a parsed `*url.URL` that `http.Redirect` reads. -/
structure URL where
  Scheme : String
  Host : String
deriving DecidableEq, Repr

/-- Models `parse(rawURL, false)`; `none` is an error. -/
def parse (lib : Lib) (rawURL : List Char) : Option URL :=
  if stringContainsCTLByte rawURL then none
  else if rawURL = ['*'] then some ⟨"", ""⟩
  else
    match getScheme rawURL with
    | none => none
    | some (scheme, rest) =>
      let scheme := scheme.map Char.toLower
      let rest := if endsWith rest ['?'] ∧ rest.count '?' = 1 then rest.dropLast
        else cutBefore '?' rest
      if !startsWith rest ['/'] ∧ scheme ≠ [] then some ⟨String.mk scheme, ""⟩
      else if !startsWith rest ['/'] ∧ ':' ∈ cutBefore '/' rest then none
      else if (scheme ≠ [] ∨ !startsWith rest ['/', '/', '/']) ∧ startsWith rest ['/', '/'] then
        let authority := cutBefore '/' (rest.drop 2)
        let rest := fromFirst '/' (rest.drop 2)
        match lib.parseAuthority authority with
        | none => none
        | some host => if unescapeOk rest then some ⟨String.mk scheme, host⟩ else none
      else if unescapeOk rest then some ⟨String.mk scheme, ""⟩ else none

/-- Models `url.Parse`; `none` is an error. -/
def Parse (lib : Lib) (rawURL : String) : Option URL :=
  let u := cutBefore '#' rawURL.data
  let frag := cutAfter '#' rawURL.data
  match parse lib u with
  | none => none
  | some url => if frag = [] then some url else if unescapeOk frag then some url else none

end url

/-! ## Package `net/http`: headers, requests, the response recorder -/

/-- A `http.Header`: `map[string][]string`. -/
abbrev Header := GoMap (List String)

/-- Models `Header.Get` for a key already in canonical form: the first value, or `""`. -/
def Header.Get (h : Header) (key : String) : String :=
  match h.get key with
  | some (v :: _) => v
  | _ => ""

/-- Models `Header.Set` for a key already in canonical form. -/
def Header.Set (h : Header) (key value : String) : Header := h.set key [value]

/-- The request URL fields (`r.URL`): the decoded path, the encoded path hint (empty when
the default encoding of `Path` is the one received) and the query. -/
structure RequestURL where
  Path : String
  RawPath : String
  RawQuery : String
deriving DecidableEq, Repr

/-- Models `(*url.URL).EscapedPath`: `RawPath` when it is a valid encoding of `Path`, else
the default encoding of `Path`. -/
def RequestURL.EscapedPath (u : RequestURL) : String :=
  if u.RawPath ≠ "" ∧ url.validEncoded u.RawPath.data
      ∧ url.unescape u.RawPath.data = some (bytesOf u.Path.data) then u.RawPath
  else if u.Path = "*" then "*"
  else String.mk (url.escape u.Path.data)

/-- An incoming `*http.Request`. -/
structure Request where
  Method : String
  URL : RequestURL
  Host : String
  Header : Header
  Body : String
deriving DecidableEq, Repr

/-- Models `httptest.NewRequest(method, target, nil)` for a target that is a plain path
(no query or fragment, no byte that a path escapes), which is then `r.URL.Path` as it
stands, with an empty `RawPath`. -/
def NewRequest (method target : String) : Request :=
  ⟨method, ⟨target, "", ""⟩, "example.com", GoMap.empty, ""⟩

/-- The state of a `httptest.ResponseRecorder`. -/
structure ResponseRecorder where
  Code : Nat
  HeaderMap : Header
  Body : String
  wroteHeader : Bool
  snapHeader : Option Header
deriving DecidableEq, Repr

/-- Models `httptest.NewRecorder()`. -/
def NewRecorder : ResponseRecorder := ⟨200, GoMap.empty, "", false, none⟩

/-- What `ResponseRecorder.Result()` reports: status code, headers and body. -/
structure Response where
  StatusCode : Nat
  Header : Header
  Body : String
deriving DecidableEq, Repr

/-- Models `ResponseRecorder.Result()` as far as status, headers and body go: the headers
are those snapshotted by the first `WriteHeader`. -/
def ResponseRecorder.Result (rw : ResponseRecorder) : Response :=
  { StatusCode := if rw.Code = 0 then 200 else rw.Code
    Header := match rw.snapHeader with
      | some h => h
      | none => rw.HeaderMap
    Body := rw.Body }

/-- One use of the `http.ResponseWriter` interface by a handler. -/
inductive Op
  | headerStore (key : String) (values : List String)
  | headerDelete (key : String)
  | WriteHeader (code : Nat)
  | Write (buf : String)
deriving DecidableEq, Repr

/-- Models `ResponseRecorder.WriteHeader`; `none` is the panic of `checkWriteHeaderCode`. -/
def ResponseRecorder.WriteHeader (rw : ResponseRecorder) (code : Nat) :
    Option ResponseRecorder :=
  if rw.wroteHeader then some rw
  else if code < 100 ∨ code > 999 then none
  else some { rw with Code := code, wroteHeader := true, snapHeader := some rw.HeaderMap }

/-- Models `ResponseRecorder.writeHeader(b, "")`, the implicit header write of `Write`. -/
def ResponseRecorder.writeHeader (lib : Lib) (rw : ResponseRecorder) (b : String) :
    Option ResponseRecorder :=
  if rw.wroteHeader then some rw
  else
    let m := rw.HeaderMap
    let hasType := (m.get "Content-Type").isSome
    let hasTE := m.Get "Transfer-Encoding" ≠ ""
    let m := if !hasType ∧ !hasTE then m.Set "Content-Type" (lib.DetectContentType b) else m
    ResponseRecorder.WriteHeader { rw with HeaderMap := m } 200

/-- Models `ResponseRecorder.Write`. -/
def ResponseRecorder.Write (lib : Lib) (rw : ResponseRecorder) (buf : String) :
    Option ResponseRecorder :=
  match rw.writeHeader lib buf with
  | none => none
  | some rw => some { rw with Body := rw.Body ++ buf }

/-- The effect of one interface call on the recorder; `none` is a panic. -/
def ResponseRecorder.apply (lib : Lib) (rw : ResponseRecorder) : Op → Option ResponseRecorder
  | Op.headerStore k vs => some { rw with HeaderMap := rw.HeaderMap.set k vs }
  | Op.headerDelete k => some { rw with HeaderMap := rw.HeaderMap.delete k }
  | Op.WriteHeader code => rw.WriteHeader code
  | Op.Write buf => rw.Write lib buf

/-- A `http.Handler` other than the ones built here (the fallback): given the request and
the header map it can read from the writer, the interface calls it makes. -/
abbrev Handler := Request → Header → List Op

/-- A call the handler body makes to a collaborator. -/
inductive Call
  | Redirect (r : Request) (url : String) (code : Nat)
  | ServeHTTP (r : Request)
deriving DecidableEq, Repr

/-- The state a handler call runs in. -/
structure State where
  w : ResponseRecorder
  calls : List Call
  panicked : Bool
deriving DecidableEq, Repr

/-- Runs interface calls against the writer until one panics. -/
def State.perform (lib : Lib) : List Op → State → State
  | [], s => s
  | op :: ops, s =>
    if s.panicked then s
    else
      match s.w.apply lib op with
      | none => { s with panicked := true }
      | some w => State.perform lib ops { s with w := w }

/-- A `http.HandlerFunc`: `func(w http.ResponseWriter, r *http.Request)`, run on a state. -/
abbrev HandlerFunc := Request → State → State

/-- Models `fallback.ServeHTTP(w, r)`. -/
def Handler.ServeHTTP (lib : Lib) (h : Handler) (r : Request) (s : State) : State :=
  if s.panicked then s
  else State.perform lib (h r s.w.HeaderMap) { s with calls := s.calls ++ [Call.ServeHTTP r] }

/-- Calls a handler function with a writer, as a server or a test does. -/
def serve (h : HandlerFunc) (w : ResponseRecorder) (r : Request) : State :=
  h r ⟨w, [], false⟩

/-! ## Package `net/http`: `Redirect` -/

namespace http

/-- The constant `http.StatusMovedPermanently`. -/
def StatusMovedPermanently : Nat := 301

/-- Models `http.StatusText`. -/
def StatusText (code : Nat) : String :=
  match code with
  | 100 => "Continue"
  | 101 => "Switching Protocols"
  | 102 => "Processing"
  | 103 => "Early Hints"
  | 200 => "OK"
  | 201 => "Created"
  | 202 => "Accepted"
  | 203 => "Non-Authoritative Information"
  | 204 => "No Content"
  | 205 => "Reset Content"
  | 206 => "Partial Content"
  | 207 => "Multi-Status"
  | 208 => "Already Reported"
  | 226 => "IM Used"
  | 300 => "Multiple Choices"
  | 301 => "Moved Permanently"
  | 302 => "Found"
  | 303 => "See Other"
  | 304 => "Not Modified"
  | 305 => "Use Proxy"
  | 307 => "Temporary Redirect"
  | 308 => "Permanent Redirect"
  | 400 => "Bad Request"
  | 401 => "Unauthorized"
  | 402 => "Payment Required"
  | 403 => "Forbidden"
  | 404 => "Not Found"
  | 405 => "Method Not Allowed"
  | 406 => "Not Acceptable"
  | 407 => "Proxy Authentication Required"
  | 408 => "Request Timeout"
  | 409 => "Conflict"
  | 410 => "Gone"
  | 411 => "Length Required"
  | 412 => "Precondition Failed"
  | 413 => "Request Entity Too Large"
  | 414 => "Request URI Too Long"
  | 415 => "Unsupported Media Type"
  | 416 => "Requested Range Not Satisfiable"
  | 417 => "Expectation Failed"
  | 418 => "I\x27m a teapot"
  | 421 => "Misdirected Request"
  | 422 => "Unprocessable Entity"
  | 423 => "Locked"
  | 424 => "Failed Dependency"
  | 425 => "Too Early"
  | 426 => "Upgrade Required"
  | 428 => "Precondition Required"
  | 429 => "Too Many Requests"
  | 431 => "Request Header Fields Too Large"
  | 451 => "Unavailable For Legal Reasons"
  | 500 => "Internal Server Error"
  | 501 => "Not Implemented"
  | 502 => "Bad Gateway"
  | 503 => "Service Unavailable"
  | 504 => "Gateway Timeout"
  | 505 => "HTTP Version Not Supported"
  | 506 => "Variant Also Negotiates"
  | 507 => "Insufficient Storage"
  | 508 => "Loop Detected"
  | 510 => "Not Extended"
  | 511 => "Network Authentication Required"
  | _ => ""

/-- A lower-case hexadecimal digit, as `strconv.AppendInt(_, _, 16)` writes it. -/
def hexDigit (d : Nat) : Char := if d < 10 then Char.ofNat (48 + d) else Char.ofNat (87 + d)

/-- The escape `%xx` of one byte. -/
def hexEscapeByte (b : Nat) : List Char := ['%', hexDigit (b / 16), hexDigit (b % 16)]

/-- Character-list form of `hexEscapeNonASCII`: every byte of a non-ASCII character
becomes `%xx`. -/
def hexEscapeChars : List Char → List Char
  | [] => []
  | c :: cs =>
    if c.toNat < 128 then c :: hexEscapeChars cs
    else ((utf8Bytes c.toNat).map hexEscapeByte).flatten ++ hexEscapeChars cs

/-- Models `hexEscapeNonASCII`. -/
def hexEscapeNonASCII (s : String) : String := String.mk (hexEscapeChars s.data)

/-- Models `htmlEscape` (the replacer for ampersand, angle brackets and both quotes). -/
def htmlEscape (s : String) : String :=
  String.mk (s.data.map (fun c =>
    if c = '&' then "&amp;".data
    else if c = '<' then "&lt;".data
    else if c = '>' then "&gt;".data
    else if c = Char.ofNat 34 then "&#34;".data
    else if c = Char.ofNat 39 then "&#39;".data
    else [c])).flatten

/-- The rewriting `http.Redirect` applies to a target without scheme and host: the target
is made absolute against `oldpath`, the escaped path of the request, and cleaned, its query
kept. -/
def resolveRelative (oldpath : String) (url : List Char) : List Char :=
  let oldpath := if oldpath = "" then ['/'] else oldpath.data
  let url := if url = [] ∨ url.head? ≠ some '/' then path.SplitDir oldpath ++ url else url
  let query := fromFirst '?' url
  let url := cutBefore '?' url
  let trailing := endsWith url ['/']
  let url := path.Clean url
  let url := if trailing ∧ !endsWith url ['/'] then url ++ ['/'] else url
  url ++ query

/-- The target `http.Redirect` sends for the argument `url` on a request whose escaped path
(`r.URL.EscapedPath()`) is `oldpath`. -/
def redirectTarget (lib : Lib) (oldpath url : String) : String :=
  match urlshort.url.Parse lib url with
  | some u => if u.Scheme = "" ∧ u.Host = "" then String.mk (resolveRelative oldpath url.data)
    else url
  | none => url

/-- The interface calls of `http.Redirect(w, r, url, code)`, given the header map of `w`. -/
def redirectOps (lib : Lib) (h : Header) (r : Request) (url : String) (code : Nat) :
    List Op :=
  let url := redirectTarget lib r.URL.EscapedPath url
  let hadCT := (h.get "Content-Type").isSome
  [Op.headerStore "Location" [hexEscapeNonASCII url]]
  ++ (if !hadCT ∧ (r.Method = "GET" ∨ r.Method = "HEAD")
      then [Op.headerStore "Content-Type" ["text/html; charset=utf-8"]] else [])
  ++ [Op.WriteHeader code]
  ++ (if !hadCT ∧ r.Method = "GET"
      then [Op.Write ("<a href=\"" ++ htmlEscape url ++ "\">" ++ StatusText code ++ "</a>.\n" ++ "\n")]
      else [])

/-- Models `http.Redirect(w, r, url, code)`. -/
def Redirect (lib : Lib) (r : Request) (url : String) (code : Nat) (s : State) : State :=
  if s.panicked then s
  else State.perform lib (redirectOps lib s.w.HeaderMap r url code)
    { s with calls := s.calls ++ [Call.Redirect r url code] }

end http

/-! ## Package `encoding/json`: `Unmarshal` into a `[]pathURL`

`json.Unmarshal` first checks the whole input against the JSON grammar (`checkValid`) and
only then stores values.  The model does the same in two stages: `parseValue` accepts
exactly the inputs the scanner accepts and yields the value tree, `decode` stores it into
the slice of records. -/

namespace json

/-- A JSON value; a string is kept as the bytes between its quotes. -/
inductive Value
  | null
  | bool (b : Bool)
  | number (lit : List Char)
  | string (raw : List Char)
  | array (elems : List Value)
  | object (members : List (List Char × Value))

/-- A lexical element of JSON text. -/
inductive Token
  | beginArray
  | endArray
  | beginObject
  | endObject
  | comma
  | colon
  | string (raw : List Char)
  | number (lit : List Char)
  | litTrue
  | litFalse
  | litNull
deriving DecidableEq, Repr

/-- Models `isSpace` of the scanner. -/
def isSpace (c : Char) : Bool := c = ' ' || c = '\t' || c = '\r' || c = '\n'

/-- States of the number grammar (`state0`, `state1`, `stateDot`, `stateE`, ...). -/
inductive NumState
  | start
  | neg
  | zero
  | int
  | dot
  | frac
  | e
  | eSign
  | exp
deriving DecidableEq, Repr

/-- One step of the number grammar; `none` rejects. -/
def numStep (st : NumState) (c : Char) : Option NumState :=
  let digit := url.isDigit c
  match st with
  | NumState.start =>
    if c = '-' then some NumState.neg else if c = '0' then some NumState.zero
    else if digit then some NumState.int else none
  | NumState.neg =>
    if c = '0' then some NumState.zero else if digit then some NumState.int else none
  | NumState.zero =>
    if c = '.' then some NumState.dot else if c = 'e' ∨ c = 'E' then some NumState.e else none
  | NumState.int =>
    if digit then some NumState.int else if c = '.' then some NumState.dot
    else if c = 'e' ∨ c = 'E' then some NumState.e else none
  | NumState.dot => if digit then some NumState.frac else none
  | NumState.frac =>
    if digit then some NumState.frac else if c = 'e' ∨ c = 'E' then some NumState.e else none
  | NumState.e =>
    if c = '+' ∨ c = '-' then some NumState.eSign else if digit then some NumState.exp else none
  | NumState.eSign => if digit then some NumState.exp else none
  | NumState.exp => if digit then some NumState.exp else none

/-- Runs the number grammar over a literal. -/
def numRun : NumState → List Char → Option NumState
  | st, [] => some st
  | st, c :: cs =>
    match numStep st c with
    | none => none
    | some st' => numRun st' cs

/-- Whether a literal is a JSON number. -/
def validNumber (lit : List Char) : Bool :=
  match numRun NumState.start lit with
  | some NumState.zero => true
  | some NumState.int => true
  | some NumState.frac => true
  | some NumState.exp => true
  | _ => false

/-- The token for a maximal run of letters, digits, signs and dots; `none` rejects. -/
def wordToken (w : List Char) : Option Token :=
  if w = "true".data then some Token.litTrue
  else if w = "false".data then some Token.litFalse
  else if w = "null".data then some Token.litNull
  else if validNumber w then some (Token.number w)
  else none

/-- A byte that can occur in a number or in `true`, `false`, `null`. -/
def isWordChar (c : Char) : Bool :=
  url.isLetter c || url.isDigit c || c = '+' || c = '-' || c = '.'

/-- Where the scanner stands inside the text: between tokens, in a literal or number, or in
a string (`esc` is 0 in plain text, 1 after a backslash, and 5 down to 2 while the four hex
digits of a `\u` escape are due). -/
inductive LexState
  | top
  | word (acc : List Char)
  | str (acc : List Char) (esc : Nat)
deriving DecidableEq, Repr

/-- A byte met between tokens: the new state and the token it completes. -/
def lexTop (c : Char) : Option (LexState × List Token) :=
  if isSpace c then some (LexState.top, [])
  else if c = '[' then some (LexState.top, [Token.beginArray])
  else if c = ']' then some (LexState.top, [Token.endArray])
  else if c = Char.ofNat 123 then some (LexState.top, [Token.beginObject])
  else if c = Char.ofNat 125 then some (LexState.top, [Token.endObject])
  else if c = ',' then some (LexState.top, [Token.comma])
  else if c = ':' then some (LexState.top, [Token.colon])
  else if c = Char.ofNat 34 then some (LexState.str [] 0, [])
  else if isWordChar c then some (LexState.word [c], [])
  else none

/-- One byte of input; `none` is a syntax error. -/
def lexStep (st : LexState) (c : Char) : Option (LexState × List Token) :=
  match st with
  | LexState.top => lexTop c
  | LexState.word acc =>
    if isWordChar c then some (LexState.word (acc ++ [c]), [])
    else
      match wordToken acc, lexTop c with
      | some t, some (st', ts) => some (st', t :: ts)
      | _, _ => none
  | LexState.str acc esc =>
    if esc = 0 then
      if c = Char.ofNat 34 then some (LexState.top, [Token.string acc])
      else if c = Char.ofNat 92 then some (LexState.str (acc ++ [c]) 1, [])
      else if c.toNat < 32 then none
      else some (LexState.str (acc ++ [c]) 0, [])
    else if esc = 1 then
      if c = 'b' ∨ c = 'f' ∨ c = 'n' ∨ c = 'r' ∨ c = 't' ∨ c = '/'
          ∨ c = Char.ofNat 92 ∨ c = Char.ofNat 34 then
        some (LexState.str (acc ++ [c]) 0, [])
      else if c = 'u' then some (LexState.str (acc ++ [c]) 5, [])
      else none
    else if url.ishex c then some (LexState.str (acc ++ [c]) (if esc = 2 then 0 else esc - 1), [])
    else none

/-- The tokens of a text; `none` is a syntax error. -/
def lex : LexState → List Char → Option (List Token)
  | LexState.top, [] => some []
  | LexState.word acc, [] => (wordToken acc).map (fun t => [t])
  | LexState.str _ _, [] => none
  | st, c :: cs =>
    match lexStep st c with
    | none => none
    | some (st', ts) =>
      match lex st' cs with
      | none => none
      | some rest => some (ts ++ rest)

/-- What the grammar allows next (the scanner's `step` function). -/
inductive Expect
  | beginValue
  | beginValueOrEmpty
  | beginStringOrEmpty
  | beginString
  | colon
  | endValue
  | endTop
deriving DecidableEq, Repr

/-- An open array or object: the members read so far, last first, and for an object the
key whose value is due. -/
inductive Frame
  | array (elems : List Value)
  | object (members : List (List Char × Value)) (key : Option (List Char))

/-- The scanner with the value under construction. -/
structure Parser where
  stack : List Frame
  expect : Expect
  result : Option Value

/-- A value is complete: it goes into the innermost open array or object, or is the
result. -/
def Parser.finish (p : Parser) (v : Value) : Option Parser :=
  match p.stack with
  | [] => some ⟨[], Expect.endTop, some v⟩
  | Frame.array elems :: rest => some ⟨Frame.array (v :: elems) :: rest, Expect.endValue, none⟩
  | Frame.object members (some k) :: rest =>
    some ⟨Frame.object ((k, v) :: members) none :: rest, Expect.endValue, none⟩
  | Frame.object _ none :: _ => none

/-- The constant `maxNestingDepth` of the scanner. -/
def maxNestingDepth : Nat := 10000

/-- A token that starts a value; opening an array or object beyond the nesting limit is an
error (`pushParseState`). -/
def Parser.beginValue (p : Parser) (t : Token) : Option Parser :=
  match t with
  | Token.beginArray =>
    if p.stack.length + 1 ≤ maxNestingDepth
    then some ⟨Frame.array [] :: p.stack, Expect.beginValueOrEmpty, none⟩ else none
  | Token.beginObject =>
    if p.stack.length + 1 ≤ maxNestingDepth
    then some ⟨Frame.object [] none :: p.stack, Expect.beginStringOrEmpty, none⟩ else none
  | Token.string raw => p.finish (Value.string raw)
  | Token.number lit => p.finish (Value.number lit)
  | Token.litTrue => p.finish (Value.bool true)
  | Token.litFalse => p.finish (Value.bool false)
  | Token.litNull => p.finish Value.null
  | _ => none

/-- The innermost open array or object is closed by `t`. -/
def Parser.close (p : Parser) (t : Token) : Option Parser :=
  match p.stack, t with
  | Frame.array elems :: rest, Token.endArray =>
    Parser.finish ⟨rest, p.expect, none⟩ (Value.array elems.reverse)
  | Frame.object members none :: rest, Token.endObject =>
    Parser.finish ⟨rest, p.expect, none⟩ (Value.object members.reverse)
  | _, _ => none

/-- A token that must be an object key. -/
def Parser.beginKey (p : Parser) (t : Token) : Option Parser :=
  match p.stack, t with
  | Frame.object members none :: rest, Token.string raw =>
    some ⟨Frame.object members (some raw) :: rest, Expect.colon, none⟩
  | _, _ => none

/-- One token; `none` is a syntax error. -/
def Parser.step (p : Parser) (t : Token) : Option Parser :=
  match p.expect with
  | Expect.beginValue => p.beginValue t
  | Expect.beginValueOrEmpty => if t = Token.endArray then p.close t else p.beginValue t
  | Expect.beginStringOrEmpty => if t = Token.endObject then p.close t else p.beginKey t
  | Expect.beginString => p.beginKey t
  | Expect.colon => if t = Token.colon then some { p with expect := Expect.beginValue } else none
  | Expect.endValue =>
    match p.stack, t with
    | Frame.array _ :: _, Token.comma => some { p with expect := Expect.beginValue }
    | Frame.object _ _ :: _, Token.comma => some { p with expect := Expect.beginString }
    | _, _ => p.close t
  | Expect.endTop => none

/-- Runs the grammar over the tokens. -/
def Parser.run : Parser → List Token → Option Parser
  | p, [] => some p
  | p, t :: ts =>
    match p.step t with
    | none => none
    | some p' => Parser.run p' ts

/-- The value a text denotes; `none` when `checkValid` reports a syntax error. -/
def parseValue (data : String) : Option Value :=
  match lex LexState.top data.data with
  | none => none
  | some ts =>
    match Parser.run ⟨[], Expect.beginValue, none⟩ ts with
    | some ⟨[], Expect.endTop, some v⟩ => some v
    | _ => none

/-- Value of a hex digit. -/
def hexVal (c : Char) : Nat :=
  if url.isDigit c then c.toNat - 48
  else if 97 ≤ c.toNat then c.toNat - 87
  else c.toNat - 55

/-- Models `getu4`: the code unit of a `\uXXXX` escape at the head of `s`, `none` when
`s` does not start with one. -/
def getu4 (s : List Char) : Option Nat :=
  match s with
  | b :: u :: c1 :: c2 :: c3 :: c4 :: _ =>
    if b = Char.ofNat 92 ∧ u = 'u' ∧ url.ishex c1 ∧ url.ishex c2 ∧ url.ishex c3 ∧ url.ishex c4
    then some (((hexVal c1 * 16 + hexVal c2) * 16 + hexVal c3) * 16 + hexVal c4)
    else none
  | _ => none

/-- Models `utf16.DecodeRune`: the code point of a surrogate pair, `none` for U+FFFD. -/
def decodeSurrogates (r1 : Nat) (r2 : Option Nat) : Option Nat :=
  match r2 with
  | some r2 =>
    if 55296 ≤ r1 ∧ r1 < 56320 ∧ 56320 ≤ r2 ∧ r2 < 57344
    then some ((r1 - 55296) * 1024 + (r2 - 56320) + 65536) else none
  | none => none

/-- The simple escapes of `unquote`. -/
def escapeChar (e : Char) : Char :=
  if e = 'b' then Char.ofNat 8
  else if e = 'f' then Char.ofNat 12
  else if e = 'n' then '\n'
  else if e = 'r' then '\r'
  else if e = 't' then '\t'
  else e

/-- Models the loop of `unquote` on the bytes between the quotes of a string the scanner
accepted; `skip` counts bytes of an escape already decoded. -/
def unquoteLoop : Nat → List Char → List Char
  | _, [] => []
  | skip + 1, _ :: rest => unquoteLoop skip rest
  | 0, c :: rest =>
    if c = Char.ofNat 92 then
      match rest with
      | [] => []
      | e :: _ =>
        if e = 'u' then
          match getu4 (c :: rest) with
          | none => []
          | some rr =>
            if 55296 ≤ rr ∧ rr < 57344 then
              match decodeSurrogates rr (getu4 (rest.drop 5)) with
              | some dec => Char.ofNat dec :: unquoteLoop 11 rest
              | none => Char.ofNat 65533 :: unquoteLoop 5 rest
            else Char.ofNat rr :: unquoteLoop 5 rest
        else escapeChar e :: unquoteLoop 1 rest
    else c :: unquoteLoop 0 rest

/-- The Go string of a JSON string. -/
def unquote (raw : List Char) : String := String.mk (unquoteLoop 0 raw)

/-- The fields of `pathURL`, by their `json` tags. -/
inductive Field
  | Path
  | URL
deriving DecidableEq, Repr

/-- The field an object key selects: the tag equal to the key, else the tag equal to it
up to letter case; `none` for a key that is ignored. -/
def fieldFor (key : String) : Option Field :=
  if key = "path" then some Field.Path
  else if key = "url" then some Field.URL
  else if key.data.map Char.toLower = "path".data then some Field.Path
  else if key.data.map Char.toLower = "url".data then some Field.URL
  else none

/-- Stores one object member into a record (`d.object` on a struct with string fields);
the flag reports an `UnmarshalTypeError` being saved. -/
def storeMember (acc : pathURL × Bool) (m : List Char × Value) : pathURL × Bool :=
  match fieldFor (unquote m.1) with
  | none => acc
  | some f =>
    match m.2 with
    | Value.string raw =>
      match f with
      | Field.Path => ({ acc.1 with Path := unquote raw }, acc.2)
      | Field.URL => ({ acc.1 with URL := unquote raw }, acc.2)
    | Value.null => acc
    | _ => (acc.1, true)

/-- Stores one array element into a fresh record. -/
def decodeElem (v : Value) : pathURL × Bool :=
  match v with
  | Value.object members => members.foldl storeMember (⟨"", ""⟩, false)
  | Value.null => (⟨"", ""⟩, false)
  | _ => (⟨"", ""⟩, true)

/-- Stores a value into the `[]pathURL`: the slice afterwards and the saved error. -/
def decode (v : Value) : List pathURL × Option error :=
  match v with
  | Value.array elems =>
    let rs := elems.map decodeElem
    (rs.map Prod.fst, if rs.any Prod.snd then some error.jsonUnmarshalTypeError else none)
  | Value.null => ([], none)
  | _ => ([], some error.jsonUnmarshalTypeError)

/-- Models `json.Unmarshal(data, &parsedJSON)` for `var parsedJSON []pathURL`: the slice
afterwards and the returned error (`none` for `nil`). -/
def Unmarshal (data : String) : List pathURL × Option error :=
  match parseValue data with
  | none => ([], some error.jsonSyntaxError)
  | some v => decode v

end json

/-! ## `handler.go` -/

/-- Models `MapHandler`: the returned closure looks the request path up, redirects when
it is found, and then calls the fallback. -/
def MapHandler (lib : Lib) (pathsToUrls : GoMap String) (fallback : Handler) : HandlerFunc :=
  fun r s =>
    let s := match pathsToUrls.get r.URL.Path with
      | some target => http.Redirect lib r target http.StatusMovedPermanently s
      | none => s
    fallback.ServeHTTP lib r s

/-- The loop `for _, v := range parsed { pathsToUrls[v.Path] = v.URL }` on a fresh map. -/
def pathsToUrls (parsed : List pathURL) : GoMap String :=
  parsed.foldl (fun m v => m.set v.Path v.URL) GoMap.empty

/-- Models `YAMLHandler`; the pair is `(http.HandlerFunc, error)` with `none` for `nil`. -/
def YAMLHandler (lib : Lib) (yml : String) (fallback : Handler) :
    Option HandlerFunc × Option error :=
  match lib.yamlUnmarshal yml with
  | (_, some err) => (none, some err)
  | (parsedYAML, none) => (some (MapHandler lib (pathsToUrls parsedYAML) fallback), none)

/-- Models `JSONHandler`; the pair is `(http.HandlerFunc, error)` with `none` for `nil`. -/
def JSONHandler (lib : Lib) (jsn : String) (fallback : Handler) :
    Option HandlerFunc × Option error :=
  match json.Unmarshal jsn with
  | (_, some err) => (none, some err)
  | (parsedJSON, none) => (some (MapHandler lib (pathsToUrls parsedJSON) fallback), none)

/-! ## Predicates used in the statements -/

/-- An interface call that cannot panic: every call but a `WriteHeader` with a status code
outside 100..999. -/
def Op.valid : Op → Bool
  | Op.WriteHeader code => decide (100 ≤ code ∧ code ≤ 999)
  | _ => true

/-- Whether `getScheme` finds a scheme in front of the url (fragment cut off, as `Parse`
does first). -/
def url.hasScheme (u : String) : Bool :=
  match url.getScheme (cutBefore '#' u.data) with
  | some (scheme, _) => decide (scheme ≠ [])
  | none => false

/-- Whether the string is ASCII. -/
def isASCII (u : String) : Bool := u.data.all (fun c => decide (c.toNat < 128))

/-- Whether the handler body has called `http.Redirect`. -/
def State.redirected (s : State) : Bool :=
  s.calls.any (fun c => match c with
    | Call.Redirect _ _ _ => true
    | Call.ServeHTTP _ => false)

namespace test

/-- The test fixture `fallbackBody`. -/
def fallbackBody : String := "fallback"

/-- The test fixture `path`. -/
def path : String := "/example"

/-- The test fixture `url`. -/
def url : String := "https://www.google.com"

/-- The test fixture `fallback`: `fmt.Fprint(w, fallbackBody)`. -/
def fallback : Handler := fun _ _ => [Op.Write fallbackBody]

/-- The test fixture `pathsToUrls`: the map literal with the one entry `path: url`. -/
def pathsToUrls : GoMap String := ⟨[(path, url)]⟩

/-- The JSON document of `TestJSONHandler`. -/
def json : String := "[\x7b\"path\": \"/example\",\"url\": \"https://www.google.com\"\x7d]"

/-- The YAML document of `TestYAMLHandler`. -/
def yaml : String := "\n  - path: /example\n    url: https://www.google.com\n  "

/-- A YAML decoder pinned down at one document only: the document of `TestYAMLHandler`
decodes to the record `/example`, `https://www.google.com` (the test passes only if it
does); on every other document the decoder is `other`, about which nothing is assumed. -/
def yamlUnmarshal (other : String → List pathURL × Option error) (yml : String) :
    List pathURL × Option error :=
  if yml = yaml then ([⟨"/example", "https://www.google.com"⟩], none) else other yml

end test

namespace json

/-- Whether the value is a JSON string. -/
def Value.isString : Value → Bool
  | Value.string _ => true
  | _ => false

/-- No member of the object selects the field `f`. -/
def lacks (f : Field) (members : List (List Char × Value)) : Bool :=
  members.all (fun m => decide (fieldFor (unquote m.1) ≠ some f))

/-- Every member that selects a field of `pathURL` holds a JSON string. -/
def stringFields (members : List (List Char × Value)) : Bool :=
  members.all (fun m => decide (fieldFor (unquote m.1) = none) || m.2.isString)

end json

/-! ## Lemmas on maps and on the table built by the handlers -/

theorem GoMap.find_put_self {β : Type} (k : String) (v : β) (l : List (String × β)) :
    GoMap.find k (GoMap.put k v l) = some v := by
  induction l with
  | nil => simp [GoMap.put, GoMap.find]
  | cons e rest ih =>
    obtain ⟨k', v'⟩ := e
    by_cases h : k' = k
    · simp [GoMap.put, GoMap.find, h]
    · simp [GoMap.put, GoMap.find, h, ih]

theorem GoMap.find_put_ne {β : Type} (k k' : String) (v : β) (l : List (String × β))
    (hne : k' ≠ k) : GoMap.find k' (GoMap.put k v l) = GoMap.find k' l := by
  induction l with
  | nil => simp [GoMap.put, GoMap.find, Ne.symm hne]
  | cons e rest ih =>
    obtain ⟨k₀, v₀⟩ := e
    by_cases h : k₀ = k
    · subst h
      simp [GoMap.put, GoMap.find, Ne.symm hne]
    · by_cases h' : k₀ = k'
      · subst h'
        simp [GoMap.put, GoMap.find, h]
      · simp [GoMap.put, GoMap.find, h, h', ih]

theorem GoMap.find_eq_none_iff {β : Type} (k : String) (l : List (String × β)) :
    GoMap.find k l = none ↔ k ∉ l.map Prod.fst := by
  induction l with
  | nil => simp [GoMap.find]
  | cons e rest ih =>
    obtain ⟨k₀, v₀⟩ := e
    by_cases h : k₀ = k
    · simp [GoMap.find, h]
    · simp [GoMap.find, h, ih, Ne.symm h]

theorem GoMap.keys_put {β : Type} (k : String) (v : β) (l : List (String × β)) :
    (GoMap.put k v l).map Prod.fst
      = if k ∈ l.map Prod.fst then l.map Prod.fst else l.map Prod.fst ++ [k] := by
  induction l with
  | nil => simp [GoMap.put]
  | cons e rest ih =>
    obtain ⟨k₀, v₀⟩ := e
    by_cases h : k₀ = k
    · simp [GoMap.put, h]
    · have h' : ¬ k = k₀ := fun e => h e.symm
      simp only [GoMap.put, h, if_false, List.map_cons, ih, List.mem_cons, h', false_or]
      split <;> simp


theorem pathsToUrls_foldl_get (rs : List pathURL) (m : GoMap String) (p : String) :
    (rs.foldl (fun m v => m.set v.Path v.URL) m).get p
      = match rs.reverse.find? (fun v => decide (v.Path = p)) with
        | some v => some v.URL
        | none => m.get p := by
  induction rs generalizing m with
  | nil => simp
  | cons v rs ih =>
    rw [List.foldl_cons, ih, List.reverse_cons, List.find?_append]
    cases hf : rs.reverse.find? (fun v => decide (v.Path = p)) with
    | some v' => simp
    | none =>
      by_cases h : v.Path = p
      · subst h
        simp [GoMap.get, GoMap.set, GoMap.find_put_self]
      · simp [h, GoMap.get, GoMap.set, GoMap.find_put_ne _ _ _ _ (Ne.symm h)]

theorem pathsToUrls_foldl_keys (rs : List pathURL) (m : GoMap String) :
    (rs.foldl (fun m v => m.set v.Path v.URL) m).keys.Nodup
      ↔ m.keys.Nodup := by
  induction rs generalizing m with
  | nil => simp
  | cons v rs ih =>
    rw [List.foldl_cons, ih]
    simp only [GoMap.keys, GoMap.set, GoMap.keys_put]
    split
    · rfl
    · rename_i h
      rw [List.nodup_append]
      simp [h]

theorem pathsToUrls_foldl_toFinset (rs : List pathURL) (m : GoMap String) :
    (rs.foldl (fun m v => m.set v.Path v.URL) m).keys.toFinset
      = m.keys.toFinset ∪ (rs.map pathURL.Path).toFinset := by
  induction rs generalizing m with
  | nil => simp
  | cons v rs ih =>
    rw [List.foldl_cons, ih]
    simp only [GoMap.keys, GoMap.set, GoMap.keys_put]
    ext x
    split
    · rename_i h
      simp only [Finset.mem_union, List.mem_toFinset, List.map_cons, List.mem_cons]
      constructor
      · rintro (h1 | h1)
        · exact Or.inl h1
        · exact Or.inr (Or.inr h1)
      · rintro (h1 | h1 | h1)
        · exact Or.inl h1
        · exact Or.inl (h1 ▸ h)
        · exact Or.inr h1
    · simp only [Finset.mem_union, List.mem_toFinset, List.map_cons, List.mem_cons, List.mem_append, List.mem_singleton]
      tauto


theorem pathsToUrls_get_last (rs pre post : List pathURL) (v : pathURL)
    (hrs : rs = pre ++ v :: post) (hlast : ∀ v' ∈ post, v'.Path ≠ v.Path) :
    (pathsToUrls rs).get v.Path = some v.URL := by
  subst hrs
  unfold pathsToUrls
  rw [pathsToUrls_foldl_get]
  have hnone : post.reverse.find? (fun v' => decide (v'.Path = v.Path)) = none := by
    rw [List.find?_eq_none]
    intro x hx
    simpa using hlast x (List.mem_reverse.mp hx)
  simp [List.find?_append, hnone]

theorem pathsToUrls_get_none (rs : List pathURL) (p : String) (h : ∀ v ∈ rs, v.Path ≠ p) :
    (pathsToUrls rs).get p = none := by
  unfold pathsToUrls
  rw [pathsToUrls_foldl_get]
  have hnone : rs.reverse.find? (fun v => decide (v.Path = p)) = none := by
    rw [List.find?_eq_none]
    intro x hx
    simpa using h x (List.mem_reverse.mp hx)
  rw [hnone]
  rfl

theorem pathsToUrls_card (rs : List pathURL) :
    (pathsToUrls rs).len = (rs.map pathURL.Path).toFinset.card := by
  have hnd : (pathsToUrls rs).keys.Nodup := by
    unfold pathsToUrls
    rw [pathsToUrls_foldl_keys]
    simp [GoMap.keys, GoMap.empty]
  have hset : (pathsToUrls rs).keys.toFinset = (rs.map pathURL.Path).toFinset := by
    unfold pathsToUrls
    rw [pathsToUrls_foldl_toFinset]
    simp [GoMap.keys, GoMap.empty]
  rw [← hset, List.toFinset_card_of_nodup hnd]
  simp [GoMap.len, GoMap.keys]

/-- C5: table construction is last-write-wins.  For every sequence of records the table
built by the loop of `YAMLHandler` and `JSONHandler` maps a path `p` to the url of the last
record whose path is `p`, has no entry for `p` when no record has path `p`, and the empty
sequence yields the empty table.  Building is a total function of the records: no string
(empty, not a URL, duplicated) makes it fail. -/
theorem pathsToUrls_last_write_wins (rs : List pathURL) (p : String) :
    (pathsToUrls rs).get p
        = (rs.reverse.find? (fun v => decide (v.Path = p))).map pathURL.URL
    ∧ (∀ pre v post, rs = pre ++ v :: post → v.Path = p → (∀ v' ∈ post, v'.Path ≠ p) →
        (pathsToUrls rs).get p = some v.URL)
    ∧ ((∀ v ∈ rs, v.Path ≠ p) → (pathsToUrls rs).get p = none)
    ∧ pathsToUrls [] = GoMap.empty := by
  refine ⟨?_, ?_, pathsToUrls_get_none rs p, rfl⟩
  · unfold pathsToUrls
    rw [pathsToUrls_foldl_get]
    cases rs.reverse.find? (fun v => decide (v.Path = p)) <;> rfl
  · intro pre v post hrs hp hlast
    subst hp
    exact pathsToUrls_get_last rs pre post v hrs hlast

/-- C9: the table built from `N` records has as many entries as the records have distinct
paths; its keys are unique; it has exactly `N` entries when the paths are pairwise distinct,
strictly fewer when some path occurs twice, and never more than `N`; and looking up the path
of a record gives the url of the last record with that path. -/
theorem pathsToUrls_len (rs : List pathURL) :
    (pathsToUrls rs).len = (rs.map pathURL.Path).toFinset.card
    ∧ (pathsToUrls rs).keys.Nodup
    ∧ ((rs.map pathURL.Path).Nodup → (pathsToUrls rs).len = rs.length)
    ∧ (¬ (rs.map pathURL.Path).Nodup → (pathsToUrls rs).len < rs.length)
    ∧ (pathsToUrls rs).len ≤ rs.length
    ∧ (∀ pre v post, rs = pre ++ v :: post → (∀ v' ∈ post, v'.Path ≠ v.Path) →
        (pathsToUrls rs).get v.Path = some v.URL) := by
  have hcard := pathsToUrls_card rs
  have hle : (rs.map pathURL.Path).toFinset.card ≤ rs.length := by
    simpa using List.toFinset_card_le (rs.map pathURL.Path)
  refine ⟨hcard, ?_, ?_, ?_, ?_, ?_⟩
  · unfold pathsToUrls
    rw [pathsToUrls_foldl_keys]
    simp [GoMap.keys, GoMap.empty]
  · intro hnd
    rw [hcard, List.toFinset_card_of_nodup hnd, List.length_map]
  · intro hnd
    rw [hcard]
    rcases Nat.lt_or_ge (rs.map pathURL.Path).toFinset.card rs.length with h | h
    · exact h
    · exfalso
      apply hnd
      have heq : (rs.map pathURL.Path).toFinset.card = (rs.map pathURL.Path).length := by
        rw [List.length_map]; omega
      rw [List.card_toFinset] at heq
      exact List.dedup_eq_self.mp ((List.dedup_sublist _).eq_of_length heq)
  · rw [hcard]; exact hle
  · intro pre v post hrs hlast
    exact pathsToUrls_get_last rs pre post v hrs hlast


/-! ## Lemmas on the response writer and on `http.Redirect` -/

theorem State.perform_calls (lib : Lib) (ops : List Op) (s : State) :
    (State.perform lib ops s).calls = s.calls := by
  induction ops generalizing s with
  | nil => rfl
  | cons op ops ih =>
    unfold State.perform
    split
    · rfl
    · split
      · rfl
      · rw [ih]

theorem ResponseRecorder.apply_wrote (lib : Lib) (w w' : ResponseRecorder) (op : Op)
    (hw : w.wroteHeader = true) (h : w.apply lib op = some w') :
    w'.wroteHeader = true ∧ w'.Code = w.Code ∧ w'.snapHeader = w.snapHeader := by
  cases op with
  | headerStore k vs => simp [ResponseRecorder.apply] at h; subst h; simp [hw]
  | headerDelete k => simp [ResponseRecorder.apply] at h; subst h; simp [hw]
  | WriteHeader code =>
    simp [ResponseRecorder.apply, ResponseRecorder.WriteHeader, hw] at h; subst h; simp [hw]
  | Write buf =>
    simp [ResponseRecorder.apply, ResponseRecorder.Write, ResponseRecorder.writeHeader, hw] at h
    subst h; simp [hw]

theorem State.perform_wrote (lib : Lib) (ops : List Op) (s : State)
    (hw : s.w.wroteHeader = true) :
    (State.perform lib ops s).w.wroteHeader = true
    ∧ (State.perform lib ops s).w.Code = s.w.Code
    ∧ (State.perform lib ops s).w.snapHeader = s.w.snapHeader := by
  induction ops generalizing s with
  | nil => exact ⟨hw, rfl, rfl⟩
  | cons op ops ih =>
    unfold State.perform
    split
    · exact ⟨hw, rfl, rfl⟩
    · split
      · exact ⟨hw, rfl, rfl⟩
      · rename_i w' hap
        obtain ⟨h1, h2, h3⟩ := ResponseRecorder.apply_wrote lib s.w w' op hw hap
        obtain ⟨g1, g2, g3⟩ := ih { s with w := w' } h1
        exact ⟨g1, g2.trans h2, g3.trans h3⟩


theorem Header.Get_set_self (h : Header) (k : String) (v : String) (vs : List String) :
    Header.Get (h.set k (v :: vs)) k = v := by
  simp [Header.Get, GoMap.get, GoMap.set, GoMap.find_put_self]

theorem Header.Get_set_ne (h : Header) (k k' : String) (vs : List String) (hne : k' ≠ k) :
    Header.Get (h.set k vs) k' = Header.Get h k' := by
  simp [Header.Get, GoMap.get, GoMap.set, GoMap.find_put_ne _ _ _ _ hne]

theorem GoMap.get_set_self {β : Type} (m : GoMap β) (k : String) (v : β) :
    (m.set k v).get k = some v := by
  simp [GoMap.get, GoMap.set, GoMap.find_put_self]

theorem GoMap.get_set_ne {β : Type} (m : GoMap β) (k k' : String) (v : β) (hne : k' ≠ k) :
    (m.set k v).get k' = m.get k' := by
  simp [GoMap.get, GoMap.set, GoMap.find_put_ne _ _ _ _ hne]

/-- What `http.Redirect` leaves behind on a writer whose header is still unwritten. -/
theorem http.Redirect_spec (lib : Lib) (r : Request) (u : String) (code : Nat) (s : State)
    (hp : s.panicked = false) (hw : s.w.wroteHeader = false)
    (hc : 100 ≤ code ∧ code ≤ 999) :
    (http.Redirect lib r u code s).panicked = false
    ∧ (http.Redirect lib r u code s).calls = s.calls ++ [Call.Redirect r u code]
    ∧ (http.Redirect lib r u code s).w.wroteHeader = true
    ∧ (http.Redirect lib r u code s).w.Code = code
    ∧ ∃ h, (http.Redirect lib r u code s).w.snapHeader = some h
        ∧ h.get "Location"
            = some [http.hexEscapeNonASCII (http.redirectTarget lib r.URL.EscapedPath u)] := by
  have hc1 : ¬ code < 100 := by omega
  have hc2 : ¬ code > 999 := by omega
  have hne : ("Location" : String) ≠ "Content-Type" := by decide
  by_cases hct : (s.w.HeaderMap.get "Content-Type").isSome = true
  · simp [http.Redirect, http.redirectOps, hp, hct, State.perform, ResponseRecorder.apply,
      ResponseRecorder.WriteHeader, hw, hc1, hc2, GoMap.get_set_self]
  · by_cases hget : r.Method = "GET"
    · simp [http.Redirect, http.redirectOps, hp, hct, hget, State.perform,
        ResponseRecorder.apply, ResponseRecorder.WriteHeader, ResponseRecorder.Write,
        ResponseRecorder.writeHeader, hw, hc1, hc2, GoMap.get_set_self,
        GoMap.get_set_ne _ _ _ _ hne]
    · by_cases hhead : r.Method = "HEAD"
      · simp [http.Redirect, http.redirectOps, hp, hct, hget, hhead, State.perform,
          ResponseRecorder.apply, ResponseRecorder.WriteHeader, hw, hc1, hc2,
          GoMap.get_set_self, GoMap.get_set_ne _ _ _ _ hne]
      · simp [http.Redirect, http.redirectOps, hp, hct, hget, hhead, State.perform,
          ResponseRecorder.apply, ResponseRecorder.WriteHeader, hw, hc1, hc2,
          GoMap.get_set_self]

theorem http.hexEscapeChars_ascii (l : List Char) (h : ∀ c ∈ l, c.toNat < 128) :
    http.hexEscapeChars l = l := by
  induction l with
  | nil => rfl
  | cons c cs ih =>
    have hc : c.toNat < 128 := h c (List.mem_cons_self _ _)
    simp [http.hexEscapeChars, hc, ih (fun c' hc' => h c' (List.mem_cons_of_mem _ hc'))]

theorem http.hexEscapeNonASCII_ascii (u : String) (h : isASCII u = true) :
    http.hexEscapeNonASCII u = u := by
  unfold http.hexEscapeNonASCII
  rw [http.hexEscapeChars_ascii u.data (by simpa [isASCII] using h)]

theorem url.parse_scheme (lib : Lib) (raw : List Char) (v : url.URL) (scheme rest : List Char)
    (hs : url.getScheme raw = some (scheme, rest)) (hne : scheme ≠ [])
    (hparse : url.parse lib raw = some v) : v.Scheme ≠ "" := by
  have hstar : raw ≠ ['*'] := by
    intro h
    subst h
    simp [url.getScheme, url.getSchemeLoop, url.isLetter, url.isDigit] at hs
    exact hne hs.1
  have hlow : String.mk (scheme.map Char.toLower) ≠ "" := by
    intro h
    have := congrArg String.data h
    simp at this
    exact hne this
  unfold url.parse at hparse
  rw [hs] at hparse
  simp only [hstar, if_false] at hparse
  generalize (if endsWith rest ['?'] = true ∧ List.count '?' rest = 1 then rest.dropLast
    else cutBefore '?' rest) = rest' at hparse
  cases hpa : lib.parseAuthority (cutBefore '/' (List.drop 2 rest')) with
  | none =>
    rw [hpa] at hparse
    split_ifs at hparse <;> (cases hparse; exact hlow)
  | some host =>
    rw [hpa] at hparse
    split_ifs at hparse <;> (cases hparse; exact hlow)

theorem http.redirectTarget_scheme (lib : Lib) (oldpath u : String)
    (h : url.hasScheme u = true) : http.redirectTarget lib oldpath u = u := by
  unfold url.hasScheme at h
  split at h
  · rename_i scheme rest hs
    have hne : scheme ≠ [] := by simpa using h
    unfold http.redirectTarget
    split
    · rename_i v hv
      have hv' : url.parse lib (cutBefore '#' u.data) = some v := by
        unfold url.Parse at hv
        simp only at hv
        split at hv
        · cases hv
        · rename_i v' hv'
          split at hv
          · cases hv; exact hv'
          · split at hv
            · cases hv; exact hv'
            · cases hv
      have := url.parse_scheme lib _ v scheme rest hs hne hv'
      simp [this]
    · rfl
  · cases h


theorem GoMap.get_eq_none_iff {β : Type} (m : GoMap β) (k : String) :
    m.get k = none ↔ k ∉ m.keys := by
  simp only [GoMap.get, GoMap.keys]
  exact GoMap.find_eq_none_iff k m.entries

theorem GoMap.get_isSome_iff {β : Type} (m : GoMap β) (k : String) :
    (∃ v, m.get k = some v) ↔ k ∈ m.keys := by
  rw [← not_iff_not, ← GoMap.get_eq_none_iff]
  cases m.get k <;> simp

theorem Handler.ServeHTTP_calls (lib : Lib) (fb : Handler) (r : Request) (s : State)
    (hp : s.panicked = false) :
    (Handler.ServeHTTP lib fb r s).calls = s.calls ++ [Call.ServeHTTP r] := by
  simp [Handler.ServeHTTP, hp, State.perform_calls]

theorem Handler.ServeHTTP_wrote (lib : Lib) (fb : Handler) (r : Request) (s : State)
    (hw : s.w.wroteHeader = true) :
    (Handler.ServeHTTP lib fb r s).w.Code = s.w.Code
    ∧ (Handler.ServeHTTP lib fb r s).w.snapHeader = s.w.snapHeader := by
  unfold Handler.ServeHTTP
  split
  · exact ⟨rfl, rfl⟩
  · exact (State.perform_wrote lib _ { s with calls := s.calls ++ [Call.ServeHTTP r] } hw).2

theorem MapHandler_found (lib : Lib) (m : GoMap String) (fb : Handler) (r : Request)
    (w : ResponseRecorder) (u : String) (h : m.get r.URL.Path = some u) :
    serve (MapHandler lib m fb) w r
      = Handler.ServeHTTP lib fb r
          (http.Redirect lib r u http.StatusMovedPermanently ⟨w, [], false⟩) := by
  simp [serve, MapHandler, h]

theorem MapHandler_not_found (lib : Lib) (m : GoMap String) (fb : Handler) (r : Request)
    (w : ResponseRecorder) (h : m.get r.URL.Path = none) :
    serve (MapHandler lib m fb) w r = Handler.ServeHTTP lib fb r ⟨w, [], false⟩ := by
  simp [serve, MapHandler, h]

theorem ResponseRecorder.apply_valid (lib : Lib) (w : ResponseRecorder) (op : Op)
    (h : op.valid = true) : ∃ w', w.apply lib op = some w' := by
  cases op with
  | headerStore k vs => exact ⟨_, rfl⟩
  | headerDelete k => exact ⟨_, rfl⟩
  | WriteHeader code =>
    have hcode : 100 ≤ code ∧ code ≤ 999 := by simpa [Op.valid] using h
    have hc1 : ¬ code < 100 := by omega
    have hc2 : ¬ code > 999 := by omega
    by_cases hw : w.wroteHeader = true
    · simp [ResponseRecorder.apply, ResponseRecorder.WriteHeader, hw]
    · simp [ResponseRecorder.apply, ResponseRecorder.WriteHeader, hw, hc1, hc2]
  | Write buf =>
    by_cases hw : w.wroteHeader = true
    · simp [ResponseRecorder.apply, ResponseRecorder.Write, ResponseRecorder.writeHeader, hw]
    · simp [ResponseRecorder.apply, ResponseRecorder.Write, ResponseRecorder.writeHeader,
        ResponseRecorder.WriteHeader, hw]

theorem State.perform_valid (lib : Lib) (ops : List Op) (s : State)
    (hp : s.panicked = false) (h : ∀ op ∈ ops, op.valid = true) :
    (State.perform lib ops s).panicked = false := by
  induction ops generalizing s with
  | nil => exact hp
  | cons op ops ih =>
    obtain ⟨w', hw'⟩ := ResponseRecorder.apply_valid lib s.w op (h op (List.mem_cons_self _ _))
    simp only [State.perform, hp, hw']
    exact ih _ rfl (fun op' hop' => h op' (List.mem_cons_of_mem _ hop'))

theorem http.redirectOps_valid (lib : Lib) (hd : Header) (r : Request) (u : String)
    (code : Nat) (hc : 100 ≤ code ∧ code ≤ 999) :
    ∀ op ∈ http.redirectOps lib hd r u code, op.valid = true := by
  intro op hop
  simp only [http.redirectOps, List.mem_append, List.mem_singleton] at hop
  rcases hop with ((h | h) | h) | h
  · subst h; rfl
  · split at h
    · simp only [List.mem_singleton] at h; subst h; rfl
    · cases h
  · subst h; simpa [Op.valid] using hc
  · split at h
    · simp only [List.mem_singleton] at h; subst h; rfl
    · cases h

theorem http.Redirect_calls (lib : Lib) (r : Request) (u : String) (code : Nat) (s : State)
    (hp : s.panicked = false) (hc : 100 ≤ code ∧ code ≤ 999) :
    (http.Redirect lib r u code s).panicked = false
    ∧ (http.Redirect lib r u code s).calls = s.calls ++ [Call.Redirect r u code] := by
  simp only [http.Redirect, hp]
  exact ⟨State.perform_valid lib _ _ rfl (http.redirectOps_valid lib _ r u code hc),
    State.perform_calls lib _ _⟩

theorem MapHandler_calls_found (lib : Lib) (m : GoMap String) (fb : Handler) (r : Request)
    (w : ResponseRecorder) (u : String) (h : m.get r.URL.Path = some u) :
    (serve (MapHandler lib m fb) w r).calls
      = [Call.Redirect r u http.StatusMovedPermanently, Call.ServeHTTP r] := by
  rw [MapHandler_found lib m fb r w u h]
  obtain ⟨hp, hcalls⟩ := http.Redirect_calls lib r u http.StatusMovedPermanently
    ⟨w, [], false⟩ rfl (by decide)
  rw [Handler.ServeHTTP_calls lib fb r _ hp, hcalls]
  rfl

theorem MapHandler_calls_not_found (lib : Lib) (m : GoMap String) (fb : Handler)
    (r : Request) (w : ResponseRecorder) (h : m.get r.URL.Path = none) :
    (serve (MapHandler lib m fb) w r).calls = [Call.ServeHTTP r] := by
  rw [MapHandler_not_found lib m fb r w h, Handler.ServeHTTP_calls lib fb r _ rfl]
  rfl


/-! ## `MapHandler` -/

/-- The response to a request whose path the table maps to `u`, on a writer whose header
is still unwritten: the status and headers `http.Redirect` wrote. -/
theorem MapHandler_found_result (lib : Lib) (m : GoMap String) (fb : Handler) (r : Request)
    (w : ResponseRecorder) (u : String)
    (hw : w.wroteHeader = false) (h : m.get r.URL.Path = some u) :
    (serve (MapHandler lib m fb) w r).w.Result.StatusCode = 301
    ∧ (serve (MapHandler lib m fb) w r).w.Result.Header.get "Location"
        = some [http.hexEscapeNonASCII (http.redirectTarget lib r.URL.EscapedPath u)]
    ∧ some (serve (MapHandler lib m fb) w r).w.Result.Header
        = (http.Redirect lib r u http.StatusMovedPermanently ⟨w, [], false⟩).w.snapHeader := by
  rw [MapHandler_found lib m fb r w u h]
  obtain ⟨_, _, hwrote, hcode, hd, hsnap, hloc⟩ :=
    http.Redirect_spec lib r u http.StatusMovedPermanently ⟨w, [], false⟩ rfl hw (by decide)
  obtain ⟨hc, hs⟩ := Handler.ServeHTTP_wrote lib fb r _ hwrote
  simp only [ResponseRecorder.Result, hc, hs, hcode, hsnap, hloc]
  exact ⟨by decide, trivial, trivial⟩

/-- The `Location` header of that response, as `Header.Get` reads it. -/
theorem MapHandler_found_location (lib : Lib) (m : GoMap String) (fb : Handler) (r : Request)
    (w : ResponseRecorder) (u : String)
    (hw : w.wroteHeader = false) (h : m.get r.URL.Path = some u) :
    (serve (MapHandler lib m fb) w r).w.Result.Header.Get "Location"
      = http.hexEscapeNonASCII (http.redirectTarget lib r.URL.EscapedPath u) := by
  unfold Header.Get
  rw [(MapHandler_found_result lib m fb r w u hw h).2.1]

/-- C1 (as amended): for every table, fallback and request whose path the table maps to
`u`, on a writer whose header is still unwritten, the final response (after the fallback has
run too) has status 301 and carries a `Location` header, and that header is exactly `u`
whenever `u` is ASCII and starts with a scheme.  Nothing is said of the value of the header
for a url that is relative, empty or not ASCII. -/
theorem MapHandler_redirect_response (lib : Lib) (m : GoMap String) (fb : Handler)
    (r : Request) (w : ResponseRecorder) (u : String)
    (hw : w.wroteHeader = false) (h : m.get r.URL.Path = some u) :
    (serve (MapHandler lib m fb) w r).w.Result.StatusCode = 301
    ∧ ((serve (MapHandler lib m fb) w r).w.Result.Header.get "Location").isSome = true
    ∧ (isASCII u = true → url.hasScheme u = true →
        (serve (MapHandler lib m fb) w r).w.Result.Header.Get "Location" = u) := by
  obtain ⟨hstatus, hget, _⟩ := MapHandler_found_result lib m fb r w u hw h
  refine ⟨hstatus, by rw [hget]; rfl, ?_⟩
  intro hascii hscheme
  rw [MapHandler_found_location lib m fb r w u hw h,
    http.redirectTarget_scheme lib r.URL.EscapedPath u hscheme,
    http.hexEscapeNonASCII_ascii u hascii]

/-- Witness for C1: table `/example ↦ https://www.google.com`, `GET /example`, a fallback
writing `fallback`: status 301 and `Location: https://www.google.com`. -/
theorem MapHandler_redirect_response_witness :
    test.pathsToUrls.get (NewRequest "GET" test.path).URL.Path = some test.url
    ∧ ∀ lib : Lib,
      (serve (MapHandler lib test.pathsToUrls test.fallback) NewRecorder
          (NewRequest "GET" test.path)).w.Result.StatusCode = 301
      ∧ (serve (MapHandler lib test.pathsToUrls test.fallback) NewRecorder
          (NewRequest "GET" test.path)).w.Result.Header.Get "Location"
            = "https://www.google.com" :=
  ⟨by decide, fun lib =>
    have h := MapHandler_redirect_response lib test.pathsToUrls test.fallback
      (NewRequest "GET" test.path) NewRecorder test.url rfl (by decide)
    ⟨h.1, h.2.2 (by decide) (by decide)⟩⟩

/-- Counterexample to C1 as stated: the table maps `/example` to the empty url, and the
`Location` header of the response to `GET /example` is `/`, not the empty string, whatever
the fallback does. -/
theorem MapHandler_location_empty_url :
    (GoMap.mk [("/example", "")]).get (NewRequest "GET" "/example").URL.Path = some ""
    ∧ ∀ (lib : Lib) (fb : Handler),
      (serve (MapHandler lib ⟨[("/example", "")]⟩ fb) NewRecorder
          (NewRequest "GET" "/example")).w.Result.Header.Get "Location" = "/"
      ∧ (serve (MapHandler lib ⟨[("/example", "")]⟩ fb) NewRecorder
          (NewRequest "GET" "/example")).w.Result.Header.Get "Location" ≠ "" := by
  refine ⟨by decide, fun lib fb => ?_⟩
  have h := MapHandler_found_location lib ⟨[("/example", "")]⟩ fb
    (NewRequest "GET" "/example") NewRecorder "" rfl (by decide)
  have hv : http.hexEscapeNonASCII
      (http.redirectTarget lib (NewRequest "GET" "/example").URL.EscapedPath "") = "/" := rfl
  rw [h, hv]
  exact ⟨rfl, by decide⟩

/-- A non-ASCII url is not sent as stored either: its non-ASCII bytes are escaped. -/
theorem MapHandler_location_non_ascii :
    (GoMap.mk [("/example", "https://www.google.com/é")]).get
        (NewRequest "GET" "/example").URL.Path = some "https://www.google.com/é"
    ∧ ∀ (lib : Lib) (fb : Handler),
      (serve (MapHandler lib ⟨[("/example", "https://www.google.com/é")]⟩ fb) NewRecorder
          (NewRequest "GET" "/example")).w.Result.Header.Get "Location"
        = "https://www.google.com/%c3%a9" := by
  refine ⟨by decide, fun lib fb => ?_⟩
  have h := MapHandler_found_location lib ⟨[("/example", "https://www.google.com/é")]⟩ fb
    (NewRequest "GET" "/example") NewRecorder "https://www.google.com/é" rfl (by decide)
  rw [h, http.redirectTarget_scheme lib _ _ (by decide)]
  decide


theorem State.perform_w (lib : Lib) (ops : List Op) (w : ResponseRecorder)
    (c₁ c₂ : List Call) (p : Bool) :
    (State.perform lib ops ⟨w, c₁, p⟩).w = (State.perform lib ops ⟨w, c₂, p⟩).w := by
  induction ops generalizing w with
  | nil => rfl
  | cons op ops ih =>
    cases p with
    | true => rfl
    | false =>
      simp only [State.perform, Bool.false_eq_true, if_false]
      cases w.apply lib op with
      | none => rfl
      | some w' => exact ih w'

/-- C2: for every table, fallback and request whose path is not a key of the table, the
handler returned by `MapHandler` does nothing but call the fallback: the outcome is the one
of `fallback.ServeHTTP` on the same writer and request, the handler makes no call to
`http.Redirect`, and the writer ends in the state the fallback's own writes leave it in. -/
theorem MapHandler_fallback_only (lib : Lib) (m : GoMap String) (fb : Handler) (r : Request)
    (w : ResponseRecorder) (h : r.URL.Path ∉ m.keys) :
    serve (MapHandler lib m fb) w r = serve (Handler.ServeHTTP lib fb) w r
    ∧ (serve (MapHandler lib m fb) w r).calls = [Call.ServeHTTP r]
    ∧ (serve (MapHandler lib m fb) w r).redirected = false
    ∧ (serve (MapHandler lib m fb) w r).w
        = (State.perform lib (fb r w.HeaderMap) ⟨w, [], false⟩).w := by
  have hnone : m.get r.URL.Path = none := (GoMap.get_eq_none_iff m _).mpr h
  have hcalls := MapHandler_calls_not_found lib m fb r w hnone
  refine ⟨MapHandler_not_found lib m fb r w hnone, hcalls, ?_, ?_⟩
  · simp [State.redirected, hcalls]
  · rw [MapHandler_not_found lib m fb r w hnone]
    simp only [Handler.ServeHTTP, Bool.false_eq_true, if_false]
    exact State.perform_w lib _ w _ _ false

/-- Witness for C2: table `/example ↦ https://www.google.com`, a fallback writing
`fallback`, `GET /test`: status 200, body `fallback`, no `Location` header. -/
theorem MapHandler_fallback_only_witness :
    (NewRequest "GET" "/test").URL.Path ∉ test.pathsToUrls.keys
    ∧ ∀ lib : Lib,
      (serve (MapHandler lib test.pathsToUrls test.fallback) NewRecorder
          (NewRequest "GET" "/test")).w.Result.StatusCode = 200
      ∧ (serve (MapHandler lib test.pathsToUrls test.fallback) NewRecorder
          (NewRequest "GET" "/test")).w.Result.Body = "fallback"
      ∧ (serve (MapHandler lib test.pathsToUrls test.fallback) NewRecorder
          (NewRequest "GET" "/test")).w.Result.Header.get "Location" = none :=
  ⟨by decide, fun lib =>
    have h := (MapHandler_fallback_only lib test.pathsToUrls test.fallback
      (NewRequest "GET" "/test") NewRecorder (by decide)).2.2.2
    ⟨by rw [h]; rfl, by rw [h]; rfl, by rw [h]; rfl⟩⟩

/-- C3: for every table, fallback and request the handler returned by `MapHandler` calls
the fallback exactly once, with the request it was given.  When the path is not a key that
is its only call.  When the path is a key, the call to `http.Redirect` comes first and does
not panic, and the fallback then runs on the writer `http.Redirect` has written to: when
the header was unwritten before, that writer carries status 301 and a snapshot of the
headers with a `Location` entry, and they are the status and the headers of the final
response. -/
theorem MapHandler_invokes_fallback_once (lib : Lib) (m : GoMap String) (fb : Handler)
    (r : Request) (w : ResponseRecorder) :
    (serve (MapHandler lib m fb) w r).calls.count (Call.ServeHTTP r) = 1
    ∧ (∀ r', Call.ServeHTTP r' ∈ (serve (MapHandler lib m fb) w r).calls → r' = r)
    ∧ (m.get r.URL.Path = none → (serve (MapHandler lib m fb) w r).calls = [Call.ServeHTTP r])
    ∧ (∀ u, m.get r.URL.Path = some u →
        (serve (MapHandler lib m fb) w r).calls
          = [Call.Redirect r u http.StatusMovedPermanently, Call.ServeHTTP r]
        ∧ (http.Redirect lib r u http.StatusMovedPermanently ⟨w, [], false⟩).panicked = false
        ∧ serve (MapHandler lib m fb) w r
          = Handler.ServeHTTP lib fb r
              (http.Redirect lib r u http.StatusMovedPermanently ⟨w, [], false⟩)
        ∧ (w.wroteHeader = false →
            (http.Redirect lib r u http.StatusMovedPermanently ⟨w, [], false⟩).w.Code = 301
            ∧ ∃ hd, (http.Redirect lib r u http.StatusMovedPermanently
                  ⟨w, [], false⟩).w.snapHeader = some hd
                ∧ (hd.get "Location").isSome = true
                ∧ (serve (MapHandler lib m fb) w r).w.Result.StatusCode = 301
                ∧ (serve (MapHandler lib m fb) w r).w.Result.Header = hd)) := by
  have hfound : ∀ u, m.get r.URL.Path = some u →
      (serve (MapHandler lib m fb) w r).calls
        = [Call.Redirect r u http.StatusMovedPermanently, Call.ServeHTTP r] :=
    fun u hu => MapHandler_calls_found lib m fb r w u hu
  have hnot : m.get r.URL.Path = none →
      (serve (MapHandler lib m fb) w r).calls = [Call.ServeHTTP r] :=
    fun hn => MapHandler_calls_not_found lib m fb r w hn
  refine ⟨?_, ?_, hnot, ?_⟩
  · cases hget : m.get r.URL.Path with
    | none => rw [hnot hget]; simp
    | some u => rw [hfound u hget]; simp
  · intro r' hr'
    cases hget : m.get r.URL.Path with
    | none =>
      rw [hnot hget] at hr'
      simpa using hr'
    | some u =>
      rw [hfound u hget] at hr'
      simpa using hr'
  · intro u hu
    refine ⟨hfound u hu, ?_, MapHandler_found lib m fb r w u hu, ?_⟩
    · exact (http.Redirect_calls lib r u _ ⟨w, [], false⟩ rfl (by decide)).1
    · intro hw
      obtain ⟨_, _, _, hcode, hd, hsnap, hloc⟩ :=
        http.Redirect_spec lib r u http.StatusMovedPermanently ⟨w, [], false⟩ rfl hw
          (by decide)
      obtain ⟨hstatus, _, hhdr⟩ := MapHandler_found_result lib m fb r w u hw hu
      refine ⟨hcode, hd, hsnap, by rw [hloc]; rfl, hstatus, ?_⟩
      rw [hsnap] at hhdr
      exact Option.some.inj hhdr

/-- C4: the code at the input where it departs from the doc comment of `MapHandler`.  The
table maps `/example`, the handler redirects, and the fallback is called all the same: its
call is in the log and its body follows the redirect body. -/
theorem MapHandler_fallback_runs_after_redirect :
    test.pathsToUrls.get (NewRequest "GET" test.path).URL.Path = some test.url
    ∧ ∀ lib : Lib,
      (serve (MapHandler lib test.pathsToUrls test.fallback) NewRecorder
          (NewRequest "GET" test.path)).redirected = true
      ∧ Call.ServeHTTP (NewRequest "GET" test.path)
          ∈ (serve (MapHandler lib test.pathsToUrls test.fallback) NewRecorder
              (NewRequest "GET" test.path)).calls
      ∧ (serve (MapHandler lib test.pathsToUrls test.fallback) NewRecorder
          (NewRequest "GET" test.path)).w.Result.Body
          = "<a href=\"https://www.google.com\">Moved Permanently</a>.\n\nfallback" := by
  refine ⟨by decide, fun lib => ?_⟩
  have hcalls := MapHandler_calls_found lib test.pathsToUrls test.fallback
    (NewRequest "GET" test.path) NewRecorder test.url (by decide)
  refine ⟨?_, ?_, ?_⟩
  · simp [State.redirected, hcalls]
  · simp [hcalls]
  · have ht : ∀ p, http.redirectTarget lib p "https://www.google.com"
        = "https://www.google.com" := fun p => http.redirectTarget_scheme lib p _ (by decide)
    simp only [serve, MapHandler, test.pathsToUrls, test.path, test.url, NewRequest,
      GoMap.get, GoMap.find, if_true, http.Redirect, http.redirectOps, ht]
    rfl

/-- C10: the handler returned by `MapHandler` calls `http.Redirect` if and only if the
request path is a key of the table, a key being an entry whose key equals the path as a
string; and two requests with the same path get the same decision, whatever else differs
between them, on whatever writer. -/
theorem MapHandler_redirect_iff_key (lib : Lib) (m : GoMap String) (fb : Handler)
    (r : Request) (w : ResponseRecorder) :
    ((serve (MapHandler lib m fb) w r).redirected = true ↔ r.URL.Path ∈ m.keys)
    ∧ (r.URL.Path ∈ m.keys ↔ ∃ e ∈ m.entries, e.1 = r.URL.Path)
    ∧ (∀ (r' : Request) (w' : ResponseRecorder), r'.URL.Path = r.URL.Path →
        (serve (MapHandler lib m fb) w' r').redirected
          = (serve (MapHandler lib m fb) w r).redirected) := by
  have key : ∀ (r : Request) (w : ResponseRecorder),
      (serve (MapHandler lib m fb) w r).redirected = true ↔ r.URL.Path ∈ m.keys := by
    intro r w
    cases hget : m.get r.URL.Path with
    | none =>
      have hk : r.URL.Path ∉ m.keys := (GoMap.get_eq_none_iff m _).mp hget
      simp [State.redirected, MapHandler_calls_not_found lib m fb r w hget, hk]
    | some u =>
      have hk : r.URL.Path ∈ m.keys := (GoMap.get_isSome_iff m _).mp ⟨u, hget⟩
      simp [State.redirected, MapHandler_calls_found lib m fb r w u hget, hk]
  refine ⟨key r w, ?_, ?_⟩
  · simp [GoMap.keys]
  · intro r' w' hpath
    have h1 := key r' w'
    have h2 := key r w
    rw [hpath] at h1
    cases ha : (serve (MapHandler lib m fb) w' r').redirected <;>
      cases hb : (serve (MapHandler lib m fb) w r).redirected <;> simp_all

/-- Examples for C10: with the one key `/example`, a request whose path is `/example/`,
`/Example` or `/example?x=1` is not redirected, one whose path is `/example` is. -/
theorem MapHandler_redirect_iff_key_witness :
    test.pathsToUrls.keys = ["/example"]
    ∧ ∀ (lib : Lib) (fb : Handler) (w : ResponseRecorder) (r : Request),
      ((r.URL.Path = "/example/" ∨ r.URL.Path = "/Example" ∨ r.URL.Path = "/example?x=1") →
        (serve (MapHandler lib test.pathsToUrls fb) w r).redirected = false)
      ∧ (r.URL.Path = "/example" →
        (serve (MapHandler lib test.pathsToUrls fb) w r).redirected = true) := by
  refine ⟨rfl, fun lib fb w r => ?_⟩
  have h := (MapHandler_redirect_iff_key lib test.pathsToUrls fb r w).1
  constructor
  · intro hpath
    rw [Bool.eq_false_iff]
    intro hr
    have hk : r.URL.Path ∈ ["/example"] := h.mp hr
    rcases hpath with hp | hp | hp <;> rw [hp] at hk <;> revert hk <;> decide
  · intro hpath
    refine h.mpr ?_
    rw [hpath]
    exact (show "/example" ∈ ["/example"] from by decide)

/-! ## `YAMLHandler` and `JSONHandler` -/

namespace json

theorem foldl_storeMember_ok (members : List (List Char × Value)) (acc : pathURL × Bool)
    (h : ∀ m ∈ members, fieldFor (unquote m.1) ≠ none → ∃ raw, m.2 = Value.string raw) :
    (members.foldl storeMember acc).2 = acc.2 := by
  induction members generalizing acc with
  | nil => rfl
  | cons m ms ih =>
    rw [List.foldl_cons, ih _ (fun m' hm' => h m' (List.mem_cons_of_mem _ hm'))]
    have hm := h m (List.mem_cons_self _ _)
    unfold storeMember
    cases hf : fieldFor (unquote m.1) with
    | none => rfl
    | some f =>
      obtain ⟨raw, hraw⟩ := hm (by rw [hf]; simp)
      rw [hraw]
      cases f <;> rfl

theorem foldl_storeMember_URL (members : List (List Char × Value)) (acc : pathURL × Bool)
    (h : ∀ m ∈ members, fieldFor (unquote m.1) ≠ some Field.URL) :
    (members.foldl storeMember acc).1.URL = acc.1.URL := by
  induction members generalizing acc with
  | nil => rfl
  | cons m ms ih =>
    rw [List.foldl_cons, ih _ (fun m' hm' => h m' (List.mem_cons_of_mem _ hm'))]
    have hm := h m (List.mem_cons_self _ _)
    unfold storeMember
    cases hf : fieldFor (unquote m.1) with
    | none => rfl
    | some f =>
      cases f with
      | URL => exact absurd hf hm
      | Path => cases m.2 <;> rfl

theorem foldl_storeMember_Path (members : List (List Char × Value)) (acc : pathURL × Bool)
    (h : ∀ m ∈ members, fieldFor (unquote m.1) ≠ some Field.Path) :
    (members.foldl storeMember acc).1.Path = acc.1.Path := by
  induction members generalizing acc with
  | nil => rfl
  | cons m ms ih =>
    rw [List.foldl_cons, ih _ (fun m' hm' => h m' (List.mem_cons_of_mem _ hm'))]
    have hm := h m (List.mem_cons_self _ _)
    unfold storeMember
    cases hf : fieldFor (unquote m.1) with
    | none => rfl
    | some f =>
      cases f with
      | Path => exact absurd hf hm
      | URL => cases m.2 <;> rfl

theorem lacks_iff (f : Field) (members : List (List Char × Value)) :
    lacks f members = true ↔ ∀ m ∈ members, fieldFor (unquote m.1) ≠ some f := by
  simp only [lacks, List.all_eq_true, decide_eq_true_eq]

theorem stringFields_iff (members : List (List Char × Value)) :
    stringFields members = true
      ↔ ∀ m ∈ members, fieldFor (unquote m.1) ≠ none → ∃ raw, m.2 = Value.string raw := by
  simp only [stringFields, List.all_eq_true, Bool.or_eq_true, decide_eq_true_eq]
  constructor
  · intro h m hm hne
    rcases h m hm with h1 | h1
    · exact absurd h1 hne
    · cases hv : m.2 <;> simp [hv, Value.isString] at h1 ⊢
  · intro h m hm
    by_cases hf : fieldFor (unquote m.1) = none
    · exact Or.inl hf
    · obtain ⟨raw, hraw⟩ := h m hm hf
      exact Or.inr (by rw [hraw]; rfl)

theorem decode_objects (elems : List Value)
    (hobj : ∀ e ∈ elems, ∃ members, e = Value.object members ∧ stringFields members = true) :
    decode (Value.array elems) = (elems.map (fun e => (decodeElem e).1), none) := by
  have hflag : ∀ e ∈ elems, (decodeElem e).2 = false := by
    intro e he
    obtain ⟨members, rfl, hs⟩ := hobj e he
    exact foldl_storeMember_ok members _ ((stringFields_iff members).mp hs)
  have hany : ((elems.map decodeElem).any Prod.snd) = false := by
    rw [List.any_eq_false]
    intro x hx
    obtain ⟨e, he, rfl⟩ := List.mem_map.mp hx
    simp [hflag e he]
  simp only [decode, hany, List.map_map]
  rfl

end json

/-- C6: for every input and fallback, `YAMLHandler` and `JSONHandler` return exactly the
error of their decoding step, so a non-nil error if and only if decoding failed; in that
case the handler is nil, and when decoding succeeded a handler is returned. -/
theorem handler_error_iff_decode_error (lib : Lib) (data : String) (fb : Handler) :
    ((YAMLHandler lib data fb).2 = (lib.yamlUnmarshal data).2
      ∧ ((YAMLHandler lib data fb).2 ≠ none ↔ (lib.yamlUnmarshal data).2 ≠ none)
      ∧ ((lib.yamlUnmarshal data).2 ≠ none → (YAMLHandler lib data fb).1.isNone = true)
      ∧ ((lib.yamlUnmarshal data).2 = none → (YAMLHandler lib data fb).1.isSome = true))
    ∧ ((JSONHandler lib data fb).2 = (json.Unmarshal data).2
      ∧ ((JSONHandler lib data fb).2 ≠ none ↔ (json.Unmarshal data).2 ≠ none)
      ∧ ((json.Unmarshal data).2 ≠ none → (JSONHandler lib data fb).1.isNone = true)
      ∧ ((json.Unmarshal data).2 = none → (JSONHandler lib data fb).1.isSome = true)) := by
  constructor
  · unfold YAMLHandler
    rcases lib.yamlUnmarshal data with ⟨rs, _ | err⟩ <;> simp
  · unfold JSONHandler
    rcases json.Unmarshal data with ⟨rs, _ | err⟩ <;> simp

/-- C7 (as amended): a JSON text that is a list of objects, in which every member naming a
field of `pathURL` holds a string, is decoded without error whether or not an object has a
`url` or a `path` member: `JSONHandler` returns a nil error and the handler over the table
of the decoded records, and a field no member names is the empty string. -/
theorem JSONHandler_missing_field (lib : Lib) (jsn : String) (fb : Handler)
    (elems : List json.Value)
    (hparse : json.parseValue jsn = some (json.Value.array elems))
    (hobj : ∀ e ∈ elems, ∃ members, e = json.Value.object members
      ∧ json.stringFields members = true) :
    json.Unmarshal jsn = (elems.map (fun e => (json.decodeElem e).1), none)
    ∧ JSONHandler lib jsn fb
        = (some (MapHandler lib (pathsToUrls (elems.map (fun e => (json.decodeElem e).1))) fb),
            none)
    ∧ ∀ members, json.Value.object members ∈ elems →
        (json.lacks json.Field.URL members = true →
          (json.decodeElem (json.Value.object members)).1.URL = "")
        ∧ (json.lacks json.Field.Path members = true →
          (json.decodeElem (json.Value.object members)).1.Path = "") := by
  have hU : json.Unmarshal jsn = (elems.map (fun e => (json.decodeElem e).1), none) := by
    unfold json.Unmarshal
    rw [hparse]
    exact json.decode_objects elems hobj
  refine ⟨hU, ?_, ?_⟩
  · unfold JSONHandler
    rw [hU]
  · intro members _
    exact ⟨fun h => json.foldl_storeMember_URL members _ ((json.lacks_iff _ _).mp h),
      fun h => json.foldl_storeMember_Path members _ ((json.lacks_iff _ _).mp h)⟩

/-- Witness for C7 as amended: the list with the one object that has a `path` and no `url`
member. -/
theorem JSONHandler_missing_field_witness :
    json.parseValue "[\x7b\"path\": \"/example\"\x7d]"
      = some (json.Value.array
          [json.Value.object [("path".data, json.Value.string "/example".data)]])
    ∧ json.lacks json.Field.URL [("path".data, json.Value.string "/example".data)] = true
    ∧ ∀ (lib : Lib) (fb : Handler),
      JSONHandler lib "[\x7b\"path\": \"/example\"\x7d]" fb
        = (some (MapHandler lib (pathsToUrls [⟨"/example", ""⟩]) fb), none) := by
  have hparse : json.parseValue "[\x7b\"path\": \"/example\"\x7d]"
      = some (json.Value.array
          [json.Value.object [("path".data, json.Value.string "/example".data)]]) := by rfl
  have hobj : ∀ e ∈ [json.Value.object [("path".data, json.Value.string "/example".data)]],
      ∃ members, e = json.Value.object members ∧ json.stringFields members = true := by
    intro e he
    simp only [List.mem_singleton] at he
    subst he
    exact ⟨_, rfl, by decide⟩
  refine ⟨hparse, by decide, fun lib fb => ?_⟩
  · exact (JSONHandler_missing_field lib _ fb _ hparse hobj).2.1

/-- Counterexample to C7 as stated: the JSON list with the one object that has a `path`
and no `url` member decodes to the record with the empty url, and `JSONHandler` returns a
handler and a nil error. -/
theorem JSONHandler_missing_url_accepted :
    json.Unmarshal "[\x7b\"path\": \"/example\"\x7d]" = ([⟨"/example", ""⟩], none)
    ∧ ∀ (lib : Lib) (fb : Handler),
      (JSONHandler lib "[\x7b\"path\": \"/example\"\x7d]" fb).2 = none
      ∧ (JSONHandler lib "[\x7b\"path\": \"/example\"\x7d]" fb).1.isSome = true := by
  have hU : json.Unmarshal "[\x7b\"path\": \"/example\"\x7d]" = ([⟨"/example", ""⟩], none) := by
    decide
  refine ⟨hU, fun lib fb => ?_⟩
  unfold JSONHandler
  rw [hU]
  exact ⟨rfl, rfl⟩

/-- C8: when the JSON input and the YAML input both decode, without error, to the record
sequence `rs`, `JSONHandler` and `YAMLHandler` each return a nil error and the handler
`MapHandler (table built from rs) fallback`; so the two results are the same. -/
theorem handlers_agree_with_MapHandler (lib : Lib) (jsn yml : String) (fb : Handler)
    (rs : List pathURL)
    (hj : json.Unmarshal jsn = (rs, none)) (hy : lib.yamlUnmarshal yml = (rs, none)) :
    JSONHandler lib jsn fb = (some (MapHandler lib (pathsToUrls rs) fb), none)
    ∧ YAMLHandler lib yml fb = (some (MapHandler lib (pathsToUrls rs) fb), none)
    ∧ JSONHandler lib jsn fb = YAMLHandler lib yml fb := by
  have h1 : JSONHandler lib jsn fb = (some (MapHandler lib (pathsToUrls rs) fb), none) := by
    unfold JSONHandler; rw [hj]
  have h2 : YAMLHandler lib yml fb = (some (MapHandler lib (pathsToUrls rs) fb), none) := by
    unfold YAMLHandler; rw [hy]
  exact ⟨h1, h2, h1.trans h2.symm⟩


/-- Witness for C8: the documents of `TestJSONHandler` and `TestYAMLHandler`, with any
YAML decoder that decodes the latter as that test shows; both handlers are `MapHandler`
over the table of the tests. -/
theorem handlers_agree_with_MapHandler_witness :
    json.Unmarshal test.json = ([⟨"/example", "https://www.google.com"⟩], none)
    ∧ pathsToUrls [⟨"/example", "https://www.google.com"⟩] = test.pathsToUrls
    ∧ ∀ (other : String → List pathURL × Option error)
        (parseAuthority : List Char → Option String) (DetectContentType : String → String)
        (fb : Handler),
      JSONHandler ⟨test.yamlUnmarshal other, parseAuthority, DetectContentType⟩ test.json fb
        = (some (MapHandler ⟨test.yamlUnmarshal other, parseAuthority, DetectContentType⟩
            test.pathsToUrls fb), none)
      ∧ YAMLHandler ⟨test.yamlUnmarshal other, parseAuthority, DetectContentType⟩
          test.yaml fb
        = (some (MapHandler ⟨test.yamlUnmarshal other, parseAuthority, DetectContentType⟩
            test.pathsToUrls fb), none) := by
  have hj : json.Unmarshal test.json = ([⟨"/example", "https://www.google.com"⟩], none) := by
    decide
  have hm : pathsToUrls [⟨"/example", "https://www.google.com"⟩] = test.pathsToUrls := by
    decide
  refine ⟨hj, hm, fun other pa dct fb => ?_⟩
  have h := handlers_agree_with_MapHandler ⟨test.yamlUnmarshal other, pa, dct⟩ test.json
    test.yaml fb [⟨"/example", "https://www.google.com"⟩] hj
    (show test.yamlUnmarshal other test.yaml
        = ([⟨"/example", "https://www.google.com"⟩], none) from if_pos rfl)
  rw [hm] at h
  exact ⟨h.1, h.2.1⟩

end urlshort
